import Mathlib

/-!
Verification of the response-analysis and scoring pipeline of the
ai-visibility-tracker repository (Go backend).

Strings are modelled as lists of characters (`Str`); the Go code under
`backend/services/mention_detector.go` operates on ASCII byte strings, so
per-character lowering and the ASCII letter/digit classes faithfully model
`strings.ToLower`, `unicode.IsLetter` and `unicode.IsDigit` on the inputs of
interest.  Floating-point (`float64`) arithmetic is modelled exactly: by
rational numbers where the code computes field operations only, and by real
numbers where a square root occurs (the confidence estimator).  Wall-clock
instants (`time.Time`) and durations are modelled by integers (nanoseconds),
matching Go duration arithmetic.
-/

namespace AIVT

/-- Character strings, modelling Go `string` values. -/
abbrev Str := List Char

/-- Go `strings.ToLower`, per character (ASCII). -/
def strToLower (s : Str) : Str := s.map Char.toLower

/-- Boolean test that `p` is a prefix of `s` (`strStartsWith s p`). -/
def strStartsWith : Str → Str → Bool
  | _, [] => true
  | [], _ :: _ => false
  | c :: s, d :: p => c = d && strStartsWith s p

/-- Go `strings.Index`: index of the first occurrence of `p` in `s`,
`none` when `p` does not occur. -/
def strIndex : Str → Str → Option Nat
  | [], p => if strStartsWith [] p then some 0 else none
  | c :: t, p => if strStartsWith (c :: t) p then some 0 else (strIndex t p).map (· + 1)

/-- Go `strings.Contains`. -/
def containsSub (s sub : Str) : Bool := (strIndex s sub).isSome

/-- The occurrence predicate: `pat` occurs in `s` starting at index `q`. -/
def occursAt (pat s : Str) (q : Nat) : Bool := strStartsWith (s.drop q) pat

/-- Go `unicode.IsLetter c || unicode.IsDigit c` (ASCII classes). -/
def isAlphaNum (c : Char) : Bool := c.isAlpha || c.isDigit

/-- `isWordBoundary` from `mention_detector.go`: the match at `pos` of the
given `length` is neither preceded nor followed by a letter or digit. -/
def isWordBoundary (text : Str) (pos length : Nat) : Bool :=
  (if 0 < pos then
    match text.get? (pos - 1) with
    | some c => !(isAlphaNum c)
    | none => true
  else true)
  &&
  (if pos + length < text.length then
    match text.get? (pos + length) with
    | some c => !(isAlphaNum c)
    | none => true
  else true)

/-- A detected mention, as in `mention_detector.go` (`DetectedMention`);
the fields `isRecommendation` and `positionRank` are referenced by the
callers in `compare.go` and by `CalculateAndStoreMetrics` and are filled in
by the Position Ranker and Recommendation Detector stages. -/
structure DetectedMention where
  entityName : Str
  entityType : String
  sentiment : String
  contextSnippet : Str
  position : Nat
  isRecommendation : Bool
  positionRank : Nat
  deriving DecidableEq, Repr

/-- Context snippet extraction of `findEntityMentions`: up to 50
characters each side of the match in the original text (clipped at text
boundaries), with an ellipsis marker on each clipped side. -/
def contextSnippetAt (original entityName : Str) (actualPos : Nat) : Str :=
  let contextStart := actualPos - 50
  let contextEnd := min original.length (actualPos + entityName.length + 50)
  let ctx0 := (original.drop contextStart).take (contextEnd - contextStart)
  let ctx1 := if 0 < contextStart then "...".toList ++ ctx0 else ctx0
  if contextEnd < original.length then ctx1 ++ "...".toList else ctx1

/-- The loop body of `findEntityMentions`: scan `lower` from `searchStart`
for `lowerEntity`, collecting word-boundary matches with context snippets
taken from `original`.  The `fuel` argument bounds the iteration count; the
loop advances by `lowerEntity.length` per found occurrence, so fuel
`lower.length + 1` suffices whenever the entity is non-empty. -/
def findMentionsAux (original lower lowerEntity entityName : Str)
    (entityType : String) : Nat → Nat → List DetectedMention
  | 0, _ => []
  | fuel + 1, searchStart =>
    match strIndex (lower.drop searchStart) lowerEntity with
    | none => []
    | some pos =>
      let actualPos := searchStart + pos
      let rest := findMentionsAux original lower lowerEntity entityName entityType
        fuel (actualPos + lowerEntity.length)
      if isWordBoundary lower actualPos lowerEntity.length then
        { entityName := entityName, entityType := entityType, sentiment := "",
          contextSnippet := contextSnippetAt original entityName actualPos,
          position := actualPos,
          isRecommendation := false, positionRank := 0 } :: rest
      else rest

/-- `findEntityMentions` from `mention_detector.go`. -/
def findEntityMentions (originalText lowerText entityName : Str)
    (entityType : String) : List DetectedMention :=
  findMentionsAux originalText lowerText (strToLower entityName) entityName
    entityType (lowerText.length + 1) 0

/-- The positive-sentiment lexicon of `mention_detector.go`. -/
def positiveWords : List Str :=
  ["best", "excellent", "great", "amazing", "outstanding", "fantastic",
   "superior", "recommended", "top", "leading", "preferred", "favorite",
   "powerful", "efficient", "reliable", "innovative", "impressive",
   "love", "perfect", "awesome", "brilliant", "exceptional", "superb",
   "highly recommended", "top-rated", "must-have", "game-changer"].map String.toList

/-- The negative-sentiment lexicon of `mention_detector.go`. -/
def negativeWords : List Str :=
  ["worst", "terrible", "awful", "poor", "bad", "disappointing",
   "inferior", "avoid", "limited", "outdated", "slow", "expensive",
   "complicated", "confusing", "unreliable", "buggy", "frustrating",
   "hate", "horrible", "dreadful", "useless", "overpriced", "lacking",
   "not recommended", "stay away", "problems", "issues", "fails"].map String.toList

/-- The negation markers of `mention_detector.go`. -/
def negationWords : List Str :=
  ["not", "no", "never", "neither", "nobody", "nothing", "nowhere",
   "hardly", "barely", "doesn\x27t", "don\x27t", "didn\x27t", "won\x27t",
   "isn\x27t", "aren\x27t", "wasn\x27t", "weren\x27t", "hasn\x27t",
   "haven\x27t", "hadn\x27t"].map String.toList

/-- `hasNearbyNegation` from `mention_detector.go`: a negation marker occurs
in the up-to-30 characters immediately preceding the first occurrence of
`targetWord` in `text`. -/
def hasNearbyNegation (text targetWord : Str) : Bool :=
  match strIndex text targetWord with
  | none => false
  | some targetPos =>
    let beforeText := (text.take targetPos).drop (targetPos - 30)
    negationWords.any (fun neg => containsSub beforeText neg)

/-- The pair of sentiment counters accumulated by `analyzeSentiment`:
first the pass over `positiveWords`, then the pass over `negativeWords`,
each hit flipped to the opposite counter when a negation marker is nearby. -/
def sentimentScores (lowerContext : Str) : Nat × Nat :=
  let afterPositive := positiveWords.foldl
    (fun (pn : Nat × Nat) w =>
      if containsSub lowerContext w then
        if hasNearbyNegation lowerContext w then (pn.1, pn.2 + 1)
        else (pn.1 + 1, pn.2)
      else pn)
    (0, 0)
  negativeWords.foldl
    (fun (pn : Nat × Nat) w =>
      if containsSub lowerContext w then
        if hasNearbyNegation lowerContext w then (pn.1 + 1, pn.2)
        else (pn.1, pn.2 + 1)
      else pn)
    afterPositive

/-- `analyzeSentiment` from `mention_detector.go`. -/
def analyzeSentiment (context : Str) : String :=
  let lowerContext := strToLower context
  let scores := sentimentScores lowerContext
  if scores.1 > scores.2 && scores.1 > 0 then "positive"
  else if scores.2 > scores.1 && scores.2 > 0 then "negative"
  else "neutral"

/-- A brand profile: name, aliases and competitor names. -/
structure Brand where
  name : Str
  aliases : List Str
  competitors : List Str

/-- `DetectMentions` from `mention_detector.go`: scan for the brand name,
every alias and every competitor name, then annotate each mention with the
sentiment of its own context snippet. -/
def detectMentions (responseText : Str) (brand : Brand) : List DetectedMention :=
  let lowerText := strToLower responseText
  let ms :=
    findEntityMentions responseText lowerText brand.name "brand"
    ++ (brand.aliases.map
        (fun a => findEntityMentions responseText lowerText a "brand")).flatten
    ++ (brand.competitors.map
        (fun c => findEntityMentions responseText lowerText c "competitor")).flatten
  ms.map (fun m => { m with sentiment := analyzeSentiment m.contextSnippet })

/-- Whether a mention is a brand mention. -/
def isBrand (m : DetectedMention) : Bool := m.entityType == "brand"

/-- Ordering of mentions by character position, used by the Position Ranker. -/
def mentionLE (a b : DetectedMention) : Prop := a.position ≤ b.position

instance : DecidableRel mentionLE := fun a b => Nat.decLe a.position b.position

instance : IsTotal DetectedMention mentionLE :=
  ⟨fun a b => Nat.le_total a.position b.position⟩

instance : IsTrans DetectedMention mentionLE :=
  ⟨fun _ _ _ hab hbc => Nat.le_trans hab hbc⟩

/-- Modelled from the spec: the walk of the Position Ranker (spec section 4.2);
the ranking code itself is not among the available source files, only its
callers are.  Walk the (sorted) mention sequence and, independently for
brand mentions, assign `positionRank` starting at `counter + 1` and
incrementing per occurrence; competitor mentions keep their default rank. -/
def assignRanks : Nat → List DetectedMention → List DetectedMention
  | _, [] => []
  | counter, m :: rest =>
    if m.entityType = "brand" then
      { m with positionRank := counter + 1 } :: assignRanks (counter + 1) rest
    else
      m :: assignRanks counter rest

/-- Modelled from the spec: the Position Ranker (spec section 4.2): sort all
mentions of a response by ascending character position, then walk the sorted
sequence assigning 1-based ranks to brand mentions. -/
def rankMentions (l : List DetectedMention) : List DetectedMention :=
  assignRanks 0 (List.insertionSort mentionLE l)

/-- Modelled from the spec: the fixed recommendation-phrase patterns of the
Recommendation Detector (spec section 4.4); the phrase list is not among the
available source files. -/
def recommendationPatterns : List Str :=
  ["i recommend", "is my top pick", "go with"].map String.toList

/-- All start indices at which `pat` occurs in `lowerText`. -/
def patternOccurrences (lowerText pat : Str) : List Nat :=
  (List.range (lowerText.length + 1)).filter (fun q => occursAt pat lowerText q)

/-- Modelled from the spec: the Recommendation Detector test for one mention
position (spec section 4.4): some pattern occurrence lies within 150
characters of the mention position, and the mention is not more than 50
characters before the start of that pattern occurrence. -/
def isRecommendedAt (lowerText : Str) (p : Nat) : Bool :=
  recommendationPatterns.any (fun pat =>
    (patternOccurrences lowerText pat).any (fun q =>
      ((q : Int) - (p : Int)).natAbs < 150 && q ≤ p + 50))

/-- Modelled from the spec: the annotation stage that flags each mention
with the Recommendation Detector result at its position (spec section 4.4). -/
def annotateRecommendations (lowerText : Str)
    (l : List DetectedMention) : List DetectedMention :=
  l.map (fun m => { m with isRecommendation := isRecommendedAt lowerText m.position })

/-- The full per-response pipeline (spec section 2): mention scan with
sentiment, then position ranking, then recommendation annotation. -/
def detectMentionsPipeline (responseText : Str) (brand : Brand) : List DetectedMention :=
  annotateRecommendations (strToLower responseText)
    (rankMentions (detectMentions responseText brand))

/-! ## Composite Score Calculator (`CalculateAndStoreMetrics`)

The calculator re-reads, via the persistence collaborator, the stored
mentions of every response of the current run; a run is modelled as a list
of responses, each response being the list of its stored mentions. -/

/-- A stored mention as read back by `CalculateAndStoreMetrics`
(`models.Mention`): only the fields the calculator consumes. -/
structure StoredMention where
  entityType : String
  sentiment : String
  positionRank : Nat
  isRecommendation : Bool
  deriving DecidableEq, Repr

/-- One analysis run: each element is the mention list of one response. -/
abbrev Run := List (List StoredMention)

/-- Score weights from `CalculateAndStoreMetrics` (fixed constants). -/
def WeightMentionRate : ℚ := 0.40

/-- Position weight constant, 25 percent. -/
def WeightPosition : ℚ := 0.25

/-- Recommendation weight constant, 20 percent. -/
def WeightRecommend : ℚ := 0.20

/-- Sentiment weight constant, 15 percent. -/
def WeightSentiment : ℚ := 0.15

/-- Whether a stored mention is a brand mention. -/
def isBrandStored (m : StoredMention) : Bool := m.entityType == "brand"

/-- Sentiment value: 5 for positive, 1 for negative, 3 otherwise. -/
def sentimentValue (s : String) : ℚ :=
  if s == "positive" then 5 else if s == "negative" then 1 else 3

/-- Position weight by rank: 1.0 for rank 1, 0.7 for rank 2, 0.4 otherwise. -/
def positionWeight (rank : Nat) : ℚ :=
  if rank = 1 then 1.0 else if rank = 2 then 0.7 else 0.4

/-- `hasBrand` for one response: some brand mention occurs. -/
def responseHasBrand (ms : List StoredMention) : Bool := ms.any isBrandStored

/-- `hasRecommendation` for one response: some brand mention with the
recommendation flag occurs. -/
def responseHasRecommendation (ms : List StoredMention) : Bool :=
  ms.any (fun m => isBrandStored m && m.isRecommendation)

/-- Per-response position score: the sum of position weights of its brand
mentions. -/
def responsePositionScore (ms : List StoredMention) : ℚ :=
  ((ms.filter isBrandStored).map (fun m => positionWeight m.positionRank)).sum

/-- `responsesWithBrand`: the number of responses with a brand mention. -/
def responsesWithBrand (run : Run) : Nat := run.countP responseHasBrand

/-- `responsesWithRecommendation` accumulated by the calculator. -/
def responsesWithRecommendation (run : Run) : Nat :=
  run.countP responseHasRecommendation

/-- `totalPositionScore` accumulated by the calculator. -/
def totalPositionScore (run : Run) : ℚ := (run.map responsePositionScore).sum

/-- `brandMentions` count accumulated by the calculator. -/
def brandMentionCount (run : Run) : Nat :=
  (run.map (fun ms => (ms.filter isBrandStored).length)).sum

/-- `brandSentimentSum` accumulated by the calculator. -/
def brandSentimentSum (run : Run) : ℚ :=
  (run.map (fun ms =>
    ((ms.filter isBrandStored).map (fun m => sentimentValue m.sentiment)).sum)).sum

/-- `categoryMentionCount` (competitor mentions) accumulated by the calculator. -/
def categoryMentionCount (run : Run) : Nat :=
  (run.map (fun ms => (ms.filter (fun m => !(isBrandStored m))).length)).sum

/-- `categorySentimentSum` accumulated by the calculator. -/
def categorySentimentSum (run : Run) : ℚ :=
  (run.map (fun ms =>
    ((ms.filter (fun m => !(isBrandStored m))).map
      (fun m => sentimentValue m.sentiment)).sum)).sum

/-- Count of brand mentions of a given sentiment across the run. -/
def brandSentimentCount (run : Run) (s : String) : Nat :=
  (run.map (fun ms =>
    (ms.filter (fun m => isBrandStored m && m.sentiment == s)).length)).sum

/-- Count of brand mentions that are neither positive nor negative. -/
def brandNeutralCount (run : Run) : Nat :=
  (run.map (fun ms =>
    (ms.filter (fun m =>
      isBrandStored m && !(m.sentiment == "positive") &&
        !(m.sentiment == "negative"))).length)).sum

/-- Step 1 of `CalculateAndStoreMetrics`: normalized mention rate. -/
def normalizedMentionRate (run : Run) : ℚ :=
  if 0 < run.length then (responsesWithBrand run : ℚ) / (run.length : ℚ) else 0

/-- Step 2 of `CalculateAndStoreMetrics`: weighted position score, the
per-response average of position weights, clamped above at 1. -/
def weightedPositionScore (run : Run) : ℚ :=
  if 0 < run.length then
    let w := totalPositionScore run / (run.length : ℚ)
    if w > 1 then 1 else w
  else 0

/-- Step 3 of `CalculateAndStoreMetrics`: recommendation rate. -/
def recommendationRate (run : Run) : ℚ :=
  if 0 < run.length then
    (responsesWithRecommendation run : ℚ) / (run.length : ℚ)
  else 0

/-- Brand average sentiment, defaulting to neutral 3.0. -/
def brandAvgSentiment (run : Run) : ℚ :=
  if 0 < brandMentionCount run then
    brandSentimentSum run / (brandMentionCount run : ℚ)
  else 3.0

/-- Category (competitor) average sentiment, defaulting to neutral 3.0. -/
def categoryAvgSentiment (run : Run) : ℚ :=
  if 0 < categoryMentionCount run then
    categorySentimentSum run / (categoryMentionCount run : ℚ)
  else 3.0

/-- Step 4 of `CalculateAndStoreMetrics`: relative sentiment index,
`(brand mean - category mean + 4) / 8`, clamped to the unit interval. -/
def relativeSentimentIndex (run : Run) : ℚ :=
  let relativeDiff := brandAvgSentiment run - categoryAvgSentiment run
  let r0 := (relativeDiff + 4.0) / 8.0
  let r1 := if r0 < 0 then 0 else r0
  if r1 > 1 then 1 else r1

/-- Step 5 of `CalculateAndStoreMetrics`: the composite visibility score. -/
def visibilityScoreOf (run : Run) : ℚ :=
  (WeightMentionRate * normalizedMentionRate run +
   WeightPosition * weightedPositionScore run +
   WeightRecommend * recommendationRate run +
   WeightSentiment * relativeSentimentIndex run) * 100

/-- The metric snapshot produced for one completed run
(`models.MetricSnapshot`, numeric and level fields only). -/
structure MetricSnapshot where
  visibilityScore : ℚ
  citationShare : ℚ
  mentionCount : Nat
  positiveCount : Nat
  neutralCount : Nat
  negativeCount : Nat
  normalizedMentionRate : ℚ
  weightedPositionScore : ℚ
  recommendationRate : ℚ
  relativeSentimentIndex : ℚ
  confidenceScore : ℝ
  confidenceLevel : String
  responseCount : Nat
  categoryAvgSentiment : ℚ

/-- `createEmptySnapshot` from `CalculateAndStoreMetrics`: the snapshot for
a brand with no responses; fields not assigned in the source take the Go
zero value. -/
def createEmptySnapshot : MetricSnapshot :=
  { visibilityScore := 0, citationShare := 0, mentionCount := 0,
    positiveCount := 0, neutralCount := 0, negativeCount := 0,
    normalizedMentionRate := 0, weightedPositionScore := 0,
    recommendationRate := 0, relativeSentimentIndex := 0,
    confidenceScore := 0, confidenceLevel := "low",
    responseCount := 0, categoryAvgSentiment := 0 }

/-- `calculateConfidenceScore` from `metrics`: given the visibility scores
of the up-to-7 most recent prior snapshots, require at least 3, else return
the neutral estimate; with mean 0 return zero confidence; otherwise
confidence is one minus the coefficient of variation (population standard
deviation over mean), clamped to the unit interval, with the qualitative
level thresholded at 0.8 and 0.5. -/
noncomputable def calculateConfidenceScore (trends : List ℝ) : ℝ × String :=
  if trends.length < 3 then (0.5, "medium")
  else
    let mean := trends.sum / (trends.length : ℝ)
    if mean = 0 then (0, "low")
    else
      let varianceSum := (trends.map (fun t => (t - mean) * (t - mean))).sum
      let variance := varianceSum / (trends.length : ℝ)
      let stdDev := Real.sqrt variance
      let confidence0 := 1 - stdDev / mean
      let confidence1 := if confidence0 < 0 then 0 else confidence0
      let confidence := if confidence1 > 1 then 1 else confidence1
      let level :=
        if confidence ≥ 0.8 then "high"
        else if confidence < 0.5 then "low"
        else "medium"
      (confidence, level)

/-- `CalculateAndStoreMetrics`: aggregate the current run into a snapshot;
`trends` are the visibility scores of the prior snapshots consulted by the
Confidence Estimator.  An empty run yields the empty snapshot instead of an
error. -/
noncomputable def calculateAndStoreMetrics (run : Run) (trends : List ℝ) : MetricSnapshot :=
  if run.length = 0 then createEmptySnapshot
  else
    { visibilityScore := visibilityScoreOf run,
      citationShare := normalizedMentionRate run * 100,
      mentionCount := brandMentionCount run,
      positiveCount := brandSentimentCount run "positive",
      neutralCount := brandNeutralCount run,
      negativeCount := brandSentimentCount run "negative",
      normalizedMentionRate := normalizedMentionRate run,
      weightedPositionScore := weightedPositionScore run,
      recommendationRate := recommendationRate run,
      relativeSentimentIndex := relativeSentimentIndex run,
      confidenceScore := (calculateConfidenceScore trends).1,
      confidenceLevel := (calculateConfidenceScore trends).2,
      responseCount := run.length,
      categoryAvgSentiment := categoryAvgSentiment run }

/-! ## Concurrency Gate (`openai.go`: `RateLimiter`, `InFlightTracker`) -/

/-- One minute in nanoseconds (`time.Minute`). -/
def minuteNs : Int := 60000000000

/-- Five minutes in nanoseconds: the in-flight staleness timeout used by
the analysis service (`NewInFlightTracker(5 * time.Minute)`). -/
def fiveMinutesNs : Int := 300000000000

/-- The `RateLimiter` state (`openai.go`): instants are nanosecond ticks. -/
structure RateLimiter where
  lastCall : Int
  minInterval : Int
  maxCallsPerMin : Nat
  callsThisMin : Nat
  minuteStart : Int
  deriving DecidableEq, Repr

/-- `CanProceed` from `openai.go`, with the current instant made explicit;
the returned state is the receiver state after the call (the source mutates
the receiver under its lock). -/
def canProceed (now : Int) (r : RateLimiter) : RateLimiter × Bool :=
  let r1 :=
    if minuteNs ≤ now - r.minuteStart then
      { r with callsThisMin := 0, minuteStart := now }
    else r
  if r1.maxCallsPerMin ≤ r1.callsThisMin then (r1, false)
  else if now - r1.lastCall < r1.minInterval then (r1, false)
  else (r1, true)

/-- `RecordCall` from `openai.go`. -/
def recordCall (now : Int) (r : RateLimiter) : RateLimiter :=
  let r1 := { r with lastCall := now, callsThisMin := r.callsThisMin + 1 }
  if minuteNs ≤ now - r1.minuteStart then
    { r1 with callsThisMin := 1, minuteStart := now }
  else r1

/-- Association-list lookup for the in-flight map. -/
def lookupFlight : List (Nat × Int) → Nat → Option Int
  | [], _ => none
  | (k, v) :: rest, b => if k = b then some v else lookupFlight rest b

/-- Association-list insert-or-replace for the in-flight map. -/
def insertFlight : List (Nat × Int) → Nat → Int → List (Nat × Int)
  | [], b, t => [(b, t)]
  | (k, v) :: rest, b, t =>
    if k = b then (b, t) :: rest else (k, v) :: insertFlight rest b t

/-- Association-list removal for the in-flight map (Go `delete`). -/
def eraseFlight : List (Nat × Int) → Nat → List (Nat × Int)
  | [], _ => []
  | (k, v) :: rest, b => if k = b then eraseFlight rest b else (k, v) :: eraseFlight rest b

/-- The `InFlightTracker` state (`openai.go`): brand id to start instant. -/
structure InFlightTracker where
  inFlight : List (Nat × Int)
  timeout : Int
  deriving DecidableEq, Repr

/-- `TryAcquire` from `openai.go`, with the current instant made explicit:
refuse when a non-stale entry exists, otherwise record the new start. -/
def tryAcquire (now : Int) (brandID : Nat) (t : InFlightTracker) :
    InFlightTracker × Bool :=
  match lookupFlight t.inFlight brandID with
  | some startTime =>
    if now - startTime < t.timeout then (t, false)
    else ({ t with inFlight := insertFlight t.inFlight brandID now }, true)
  | none => ({ t with inFlight := insertFlight t.inFlight brandID now }, true)

/-- `Release` from `openai.go`. -/
def release (brandID : Nat) (t : InFlightTracker) : InFlightTracker :=
  { t with inFlight := eraseFlight t.inFlight brandID }

/-- Specification helper for the Position Ranker: assign consecutive ranks
`c + 1, c + 2, ...` to every element of a list. -/
def rankSeq : Nat → List DetectedMention → List DetectedMention
  | _, [] => []
  | c, m :: rest => { m with positionRank := c + 1 } :: rankSeq (c + 1) rest

/-! ## Lemmas and claim theorems -/

lemma canProceed_fst (now : Int) (r : RateLimiter) :
    (canProceed now r).1 =
      if minuteNs ≤ now - r.minuteStart then
        { r with callsThisMin := 0, minuteStart := now }
      else r := by
  unfold canProceed
  by_cases h : minuteNs ≤ now - r.minuteStart <;>
    simp only [h, if_true, if_false, reduceIte] <;> split <;> first | rfl | split <;> rfl

lemma recordCall_eq (now : Int) (r : RateLimiter) :
    recordCall now r =
      if minuteNs ≤ now - r.minuteStart then
        { r with lastCall := now, callsThisMin := 1, minuteStart := now }
      else { r with lastCall := now, callsThisMin := r.callsThisMin + 1 } := by
  unfold recordCall
  by_cases h : minuteNs ≤ now - r.minuteStart <;> simp [h]

/-- C4 counterexample: on a state whose minute window has just elapsed with
a non-zero per-minute counter, `CanProceed` mutates the state. -/
theorem claim4_counterexample :
    (canProceed minuteNs
      { lastCall := 0, minInterval := 0, maxCallsPerMin := 3,
        callsThisMin := 2, minuteStart := 0 }).1 ≠
      { lastCall := 0, minInterval := 0, maxCallsPerMin := 3,
        callsThisMin := 2, minuteStart := 0 } := by
  decide

/-- C4 (amended): `CanProceed` never changes `lastCall`, and leaves the
state entirely unchanged whenever less than a minute has passed since the
window start; when a new minute window has begun it resets the per-minute
counter to 0 and the window start to the current instant.  `RecordCall`
always sets `lastCall`, and resets the counter (to 1) and window start
exactly when a new minute window has begun. -/
theorem claim4_amended (now : Int) (r : RateLimiter) :
    (canProceed now r).1.lastCall = r.lastCall ∧
    (now - r.minuteStart < minuteNs → (canProceed now r).1 = r) ∧
    (minuteNs ≤ now - r.minuteStart →
      (canProceed now r).1.callsThisMin = 0 ∧
      (canProceed now r).1.minuteStart = now) ∧
    (recordCall now r).lastCall = now ∧
    (minuteNs ≤ now - r.minuteStart →
      (recordCall now r).callsThisMin = 1 ∧ (recordCall now r).minuteStart = now) ∧
    (now - r.minuteStart < minuteNs →
      (recordCall now r).callsThisMin = r.callsThisMin + 1 ∧
      (recordCall now r).minuteStart = r.minuteStart) := by
  have hcp := canProceed_fst now r
  have hrc := recordCall_eq now r
  by_cases h : minuteNs ≤ now - r.minuteStart
  · refine ⟨?_, ?_, ?_, ?_, ?_, ?_⟩
    · rw [hcp, if_pos h]
    · intro hlt; omega
    · intro _; rw [hcp, if_pos h]; exact ⟨rfl, rfl⟩
    · rw [hrc, if_pos h]
    · intro _; rw [hrc, if_pos h]; exact ⟨rfl, rfl⟩
    · intro hlt; omega
  · refine ⟨?_, ?_, ?_, ?_, ?_, ?_⟩
    · rw [hcp, if_neg h]
    · intro _; rw [hcp, if_neg h]
    · intro hge; omega
    · rw [hrc, if_neg h]
    · intro hge; omega
    · intro _; rw [hrc, if_neg h]; exact ⟨rfl, rfl⟩

/-- C4 amended witness at a concrete state inside the current window. -/
theorem claim4_amended_witness :
    ((0 : Int) - 0 < minuteNs) ∧
    (canProceed 0
      { lastCall := 0, minInterval := 2000000000, maxCallsPerMin := 10,
        callsThisMin := 4, minuteStart := 0 }).1 =
      { lastCall := 0, minInterval := 2000000000, maxCallsPerMin := 10,
        callsThisMin := 4, minuteStart := 0 } :=
  ⟨by decide,
   (claim4_amended 0
     { lastCall := 0, minInterval := 2000000000, maxCallsPerMin := 10,
       callsThisMin := 4, minuteStart := 0 }).2.1 (by decide)⟩

lemma lookupFlight_insertFlight (m : List (Nat × Int)) (b : Nat) (t : Int) :
    lookupFlight (insertFlight m b t) b = some t := by
  induction m with
  | nil => simp [insertFlight, lookupFlight]
  | cons kv rest ih =>
    obtain ⟨k, v⟩ := kv
    by_cases h : k = b <;> simp [insertFlight, lookupFlight, h, ih]

lemma tryAcquire_lookup_some (now : Int) (b : Nat) (t : InFlightTracker)
    (s : Int) (hl : lookupFlight t.inFlight b = some s) :
    tryAcquire now b t =
      if now - s < t.timeout then (t, false)
      else ({ t with inFlight := insertFlight t.inFlight b now }, true) := by
  unfold tryAcquire
  rw [hl]

lemma tryAcquire_success_state (now : Int) (b : Nat) (t : InFlightTracker)
    (h : (tryAcquire now b t).2 = true) :
    (tryAcquire now b t).1 = { t with inFlight := insertFlight t.inFlight b now } := by
  cases hl : lookupFlight t.inFlight b with
  | none => unfold tryAcquire; rw [hl]
  | some startTime =>
    rw [tryAcquire_lookup_some now b t startTime hl] at h ⊢
    by_cases hc : now - startTime < t.timeout
    · rw [if_pos hc] at h; exact absurd h (by simp)
    · rw [if_neg hc]

/-- C8: after a successful `TryAcquire` for a brand, a second `TryAcquire`
for the same brand (no intervening `Release`) fails while less than the
5-minute staleness timeout has elapsed, and succeeds again once the timeout
has elapsed, the held slot being treated as abandoned. -/
theorem claim8_inflight (t : InFlightTracker) (b : Nat) (now0 now1 : Int)
    (htimeout : t.timeout = fiveMinutesNs)
    (hacq : (tryAcquire now0 b t).2 = true) :
    (now1 - now0 < fiveMinutesNs →
      (tryAcquire now1 b (tryAcquire now0 b t).1).2 = false) ∧
    (fiveMinutesNs ≤ now1 - now0 →
      (tryAcquire now1 b (tryAcquire now0 b t).1).2 = true) := by
  rw [tryAcquire_success_state now0 b t hacq]
  have hstep := tryAcquire_lookup_some now1 b
    { t with inFlight := insertFlight t.inFlight b now0 } now0
    (lookupFlight_insertFlight t.inFlight b now0)
  rw [hstep]
  have hto : ({ t with inFlight := insertFlight t.inFlight b now0 } :
      InFlightTracker).timeout = fiveMinutesNs := htimeout
  rw [hto]
  constructor
  · intro hlt
    rw [if_pos hlt]
  · intro hge
    rw [if_neg (by omega)]

/-- C8 witness: a fresh tracker, acquisition at instant 0, retry at instant
1 (refused) and at the timeout instant (granted). -/
theorem claim8_inflight_witness :
    (tryAcquire 1 1 (tryAcquire 0 1 ⟨[], fiveMinutesNs⟩).1).2 = false ∧
    (tryAcquire fiveMinutesNs 1 (tryAcquire 0 1 ⟨[], fiveMinutesNs⟩).1).2 = true := by
  have h1 := claim8_inflight ⟨[], fiveMinutesNs⟩ 1 0 1 rfl (by decide)
  have h2 := claim8_inflight ⟨[], fiveMinutesNs⟩ 1 0 fiveMinutesNs rfl (by decide)
  exact ⟨h1.1 (by decide), h2.2 (by decide)⟩

/-- C9: on a run with zero responses, `CalculateAndStoreMetrics` does not
fail: it produces the empty snapshot, with zero visibility score, citation
share, mention count and component scores, and confidence level low. -/
theorem claim9_empty_run (trends : List ℝ) :
    calculateAndStoreMetrics [] trends = createEmptySnapshot ∧
    (calculateAndStoreMetrics [] trends).visibilityScore = 0 ∧
    (calculateAndStoreMetrics [] trends).citationShare = 0 ∧
    (calculateAndStoreMetrics [] trends).mentionCount = 0 ∧
    (calculateAndStoreMetrics [] trends).normalizedMentionRate = 0 ∧
    (calculateAndStoreMetrics [] trends).weightedPositionScore = 0 ∧
    (calculateAndStoreMetrics [] trends).recommendationRate = 0 ∧
    (calculateAndStoreMetrics [] trends).relativeSentimentIndex = 0 ∧
    (calculateAndStoreMetrics [] trends).confidenceLevel = "low" := by
  simp [calculateAndStoreMetrics, createEmptySnapshot]

/-- C6: the sentiment classifier counts lexicon hits (with the polarity of
a hit flipped when a negation marker occurs in the 30 characters preceding
it, as accumulated by `sentimentScores`), returns positive exactly when the
positive count exceeds the negative count, negative exactly when the
negative count exceeds the positive count, and neutral otherwise; the
snippet "not the best" classifies negative. -/
theorem claim6_sentiment :
    (∀ context : Str,
      (analyzeSentiment context = "positive" ↔
        (sentimentScores (strToLower context)).2 <
          (sentimentScores (strToLower context)).1) ∧
      (analyzeSentiment context = "negative" ↔
        (sentimentScores (strToLower context)).1 <
          (sentimentScores (strToLower context)).2) ∧
      (analyzeSentiment context = "neutral" ↔
        (sentimentScores (strToLower context)).1 =
          (sentimentScores (strToLower context)).2)) ∧
    analyzeSentiment "not the best".toList = "negative" := by
  constructor
  · intro context
    simp only [analyzeSentiment, gt_iff_lt, Bool.and_eq_true, decide_eq_true_eq]
    split_ifs with h1 h2
    · exact ⟨⟨fun _ => h1.1, fun _ => rfl⟩,
        ⟨fun hc => absurd hc (by decide), fun hlt => absurd hlt (by omega)⟩,
        ⟨fun hc => absurd hc (by decide), fun heq => absurd heq (by omega)⟩⟩
    · exact ⟨⟨fun hc => absurd hc (by decide), fun hlt => absurd hlt (by omega)⟩,
        ⟨fun _ => h2.1, fun _ => rfl⟩,
        ⟨fun hc => absurd hc (by decide), fun heq => absurd heq (by omega)⟩⟩
    · exact ⟨⟨fun hc => absurd hc (by decide), fun hlt => absurd hlt (by omega)⟩,
        ⟨fun hc => absurd hc (by decide), fun hlt => absurd hlt (by omega)⟩,
        ⟨fun _ => by omega, fun _ => rfl⟩⟩
  · decide

lemma clampIf_eq (x : ℝ) :
    (if (if x < 0 then (0 : ℝ) else x) > 1 then (1 : ℝ) else if x < 0 then 0 else x) =
      min 1 (max 0 x) := by
  rcases lt_or_le x 0 with h | h
  · have e1 : (if x < 0 then (0 : ℝ) else x) = 0 := if_pos h
    rw [e1, if_neg (by norm_num : ¬((0 : ℝ) > 1)), max_eq_left h.le,
      min_eq_right (by norm_num : (0 : ℝ) ≤ 1)]
  · have e1 : (if x < 0 then (0 : ℝ) else x) = x := if_neg (not_lt.2 h)
    rw [e1, max_eq_right h]
    rcases lt_or_le 1 x with h1 | h1
    · rw [if_pos h1, min_eq_left h1.le]
    · rw [if_neg (not_lt.2 h1), min_eq_right h1]

lemma levelIf_spec (c : ℝ) :
    ((if (0.8 : ℝ) ≤ c then "high" else if c < (0.5 : ℝ) then "low" else "medium") =
        "high" ↔ (0.8 : ℝ) ≤ c) ∧
    ((if (0.8 : ℝ) ≤ c then "high" else if c < (0.5 : ℝ) then "low" else "medium") =
        "low" ↔ c < (0.5 : ℝ)) ∧
    ((if (0.8 : ℝ) ≤ c then "high" else if c < (0.5 : ℝ) then "low" else "medium") =
        "medium" ↔ ((0.5 : ℝ) ≤ c ∧ c < (0.8 : ℝ))) := by
  split_ifs with h8 h5
  · exact ⟨⟨fun _ => h8, fun _ => rfl⟩,
      ⟨fun hc => absurd hc (by decide), fun h => absurd h (by linarith)⟩,
      ⟨fun hc => absurd hc (by decide), fun h => absurd h.2 (by linarith)⟩⟩
  · exact ⟨⟨fun hc => absurd hc (by decide), fun h => absurd h h8⟩,
      ⟨fun _ => h5, fun _ => rfl⟩,
      ⟨fun hc => absurd hc (by decide), fun h => absurd h.1 (by linarith)⟩⟩
  · exact ⟨⟨fun hc => absurd hc (by decide), fun h => absurd h h8⟩,
      ⟨fun hc => absurd hc (by decide), fun h => absurd h h5⟩,
      ⟨fun _ => ⟨not_lt.1 h5, not_le.1 h8⟩, fun _ => rfl⟩⟩

/-- C7: the confidence estimate is the fixed pair (0.5, medium) with fewer
than 3 prior snapshots; otherwise, with mean 0 it is (0, low), and with a
non-zero mean the score is 1 minus (population standard deviation over
mean), clamped to the unit interval, with level high iff the score is at
least 0.8, low iff below 0.5, and medium otherwise. -/
theorem claim7_confidence (trends : List ℝ) :
    (trends.length < 3 → calculateConfidenceScore trends = (0.5, "medium")) ∧
    (3 ≤ trends.length →
      (trends.sum / (trends.length : ℝ) = 0 →
        calculateConfidenceScore trends = (0, "low")) ∧
      (trends.sum / (trends.length : ℝ) ≠ 0 →
        (calculateConfidenceScore trends).1 =
          min 1 (max 0 (1 -
            Real.sqrt ((trends.map (fun t =>
                (t - trends.sum / (trends.length : ℝ)) *
                  (t - trends.sum / (trends.length : ℝ)))).sum /
              (trends.length : ℝ)) /
            (trends.sum / (trends.length : ℝ)))) ∧
        ((calculateConfidenceScore trends).2 = "high" ↔
          0.8 ≤ (calculateConfidenceScore trends).1) ∧
        ((calculateConfidenceScore trends).2 = "low" ↔
          (calculateConfidenceScore trends).1 < 0.5) ∧
        ((calculateConfidenceScore trends).2 = "medium" ↔
          (0.5 ≤ (calculateConfidenceScore trends).1 ∧
            (calculateConfidenceScore trends).1 < 0.8)))) := by
  by_cases hlen : trends.length < 3
  · refine ⟨fun _ => ?_, fun h3 => absurd hlen (by omega)⟩
    unfold calculateConfidenceScore
    rw [if_pos hlen]
  · refine ⟨fun h => absurd h hlen, fun _ => ?_⟩
    by_cases hm : trends.sum / (trends.length : ℝ) = 0
    · refine ⟨fun _ => ?_, fun hm2 => absurd hm hm2⟩
      unfold calculateConfidenceScore
      rw [if_neg hlen, if_pos hm]
    · refine ⟨fun hm2 => absurd hm2 hm, fun _ => ?_⟩
      have heq : calculateConfidenceScore trends =
          (min 1 (max 0 (1 -
            Real.sqrt ((trends.map (fun t =>
                (t - trends.sum / (trends.length : ℝ)) *
                  (t - trends.sum / (trends.length : ℝ)))).sum /
              (trends.length : ℝ)) /
            (trends.sum / (trends.length : ℝ)))),
           if (0.8 : ℝ) ≤ min 1 (max 0 (1 -
              Real.sqrt ((trends.map (fun t =>
                  (t - trends.sum / (trends.length : ℝ)) *
                    (t - trends.sum / (trends.length : ℝ)))).sum /
                (trends.length : ℝ)) /
              (trends.sum / (trends.length : ℝ)))) then "high"
           else if min 1 (max 0 (1 -
              Real.sqrt ((trends.map (fun t =>
                  (t - trends.sum / (trends.length : ℝ)) *
                    (t - trends.sum / (trends.length : ℝ)))).sum /
                (trends.length : ℝ)) /
              (trends.sum / (trends.length : ℝ)))) < (0.5 : ℝ) then "low"
           else "medium") := by
        simp only [calculateConfidenceScore, if_neg hlen, if_neg hm, clampIf_eq,
          ge_iff_le]
      rw [heq]
      exact ⟨rfl, levelIf_spec _⟩

/-- C7 witness: with an empty history (fewer than 3 snapshots) the
estimate is the fixed neutral pair. -/
theorem claim7_confidence_witness :
    (([] : List ℝ).length < 3) ∧
      calculateConfidenceScore [] = (0.5, "medium") :=
  ⟨by decide, (claim7_confidence []).1 (by decide)⟩

lemma positionWeight_nonneg (rank : Nat) : 0 ≤ positionWeight rank := by
  unfold positionWeight
  split_ifs <;> norm_num

lemma totalPositionScore_nonneg (run : Run) : 0 ≤ totalPositionScore run := by
  apply List.sum_nonneg
  intro x hx
  rcases List.mem_map.mp hx with ⟨ms, _, rfl⟩
  apply List.sum_nonneg
  intro y hy
  rcases List.mem_map.mp hy with ⟨m, _, rfl⟩
  exact positionWeight_nonneg _

lemma normalizedMentionRate_bounds (run : Run) (h : 0 < run.length) :
    0 ≤ normalizedMentionRate run ∧ normalizedMentionRate run ≤ 1 := by
  unfold normalizedMentionRate
  rw [if_pos h]
  constructor
  · positivity
  · rw [div_le_one (by exact_mod_cast h)]
    exact_mod_cast List.countP_le_length _

lemma weightedPositionScore_bounds (run : Run) (h : 0 < run.length) :
    0 ≤ weightedPositionScore run ∧ weightedPositionScore run ≤ 1 := by
  simp only [weightedPositionScore, if_pos h]
  split_ifs with hw
  · exact ⟨by norm_num, le_refl 1⟩
  · refine ⟨div_nonneg (totalPositionScore_nonneg run) (by positivity), not_lt.1 hw⟩

lemma recommendationRate_bounds (run : Run) (h : 0 < run.length) :
    0 ≤ recommendationRate run ∧ recommendationRate run ≤ 1 := by
  unfold recommendationRate
  rw [if_pos h]
  constructor
  · positivity
  · rw [div_le_one (by exact_mod_cast h)]
    exact_mod_cast List.countP_le_length _

lemma clamp01_bounds (x : ℚ) :
    0 ≤ (if (if x < 0 then (0 : ℚ) else x) > 1 then (1 : ℚ) else if x < 0 then 0 else x) ∧
      (if (if x < 0 then (0 : ℚ) else x) > 1 then (1 : ℚ) else if x < 0 then 0 else x) ≤ 1 := by
  rcases lt_or_le x 0 with h | h
  · have e : (if x < 0 then (0 : ℚ) else x) = 0 := if_pos h
    rw [e, if_neg (by norm_num : ¬((0 : ℚ) > 1))]
    norm_num
  · have e : (if x < 0 then (0 : ℚ) else x) = x := if_neg (not_lt.2 h)
    rw [e]
    rcases lt_or_le 1 x with h1 | h1
    · rw [if_pos h1]; norm_num
    · rw [if_neg (not_lt.2 h1)]; exact ⟨h, h1⟩

lemma relativeSentimentIndex_bounds (run : Run) :
    0 ≤ relativeSentimentIndex run ∧ relativeSentimentIndex run ≤ 1 := by
  simp only [relativeSentimentIndex]
  exact clamp01_bounds _

/-- C1: for a run with at least one response, every sub-component of the
produced snapshot lies in the unit interval, the visibility score lies in
[0, 100], and the visibility score is 100 times the fixed weighted sum
0.40/0.25/0.20/0.15 of the four sub-components. -/
theorem claim1_metric_bounds (run : Run) (trends : List ℝ) (h : 1 ≤ run.length) :
    (0 ≤ (calculateAndStoreMetrics run trends).visibilityScore ∧
      (calculateAndStoreMetrics run trends).visibilityScore ≤ 100) ∧
    (0 ≤ (calculateAndStoreMetrics run trends).normalizedMentionRate ∧
      (calculateAndStoreMetrics run trends).normalizedMentionRate ≤ 1) ∧
    (0 ≤ (calculateAndStoreMetrics run trends).weightedPositionScore ∧
      (calculateAndStoreMetrics run trends).weightedPositionScore ≤ 1) ∧
    (0 ≤ (calculateAndStoreMetrics run trends).recommendationRate ∧
      (calculateAndStoreMetrics run trends).recommendationRate ≤ 1) ∧
    (0 ≤ (calculateAndStoreMetrics run trends).relativeSentimentIndex ∧
      (calculateAndStoreMetrics run trends).relativeSentimentIndex ≤ 1) ∧
    (calculateAndStoreMetrics run trends).visibilityScore =
      100 * (0.40 * (calculateAndStoreMetrics run trends).normalizedMentionRate +
        0.25 * (calculateAndStoreMetrics run trends).weightedPositionScore +
        0.20 * (calculateAndStoreMetrics run trends).recommendationRate +
        0.15 * (calculateAndStoreMetrics run trends).relativeSentimentIndex) := by
  have h0 : 0 < run.length := h
  have hne : ¬(run.length = 0) := by omega
  have hnmr := normalizedMentionRate_bounds run h0
  have hwps := weightedPositionScore_bounds run h0
  have hrr := recommendationRate_bounds run h0
  have hrsi := relativeSentimentIndex_bounds run
  have hvis : visibilityScoreOf run =
      100 * (0.40 * normalizedMentionRate run + 0.25 * weightedPositionScore run +
        0.20 * recommendationRate run + 0.15 * relativeSentimentIndex run) := by
    unfold visibilityScoreOf WeightMentionRate WeightPosition WeightRecommend
      WeightSentiment
    ring
  have hs : calculateAndStoreMetrics run trends =
      { visibilityScore := visibilityScoreOf run,
        citationShare := normalizedMentionRate run * 100,
        mentionCount := brandMentionCount run,
        positiveCount := brandSentimentCount run "positive",
        neutralCount := brandNeutralCount run,
        negativeCount := brandSentimentCount run "negative",
        normalizedMentionRate := normalizedMentionRate run,
        weightedPositionScore := weightedPositionScore run,
        recommendationRate := recommendationRate run,
        relativeSentimentIndex := relativeSentimentIndex run,
        confidenceScore := (calculateConfidenceScore trends).1,
        confidenceLevel := (calculateConfidenceScore trends).2,
        responseCount := run.length,
        categoryAvgSentiment := categoryAvgSentiment run } := by
    unfold calculateAndStoreMetrics
    rw [if_neg hne]
  rw [hs]
  dsimp only
  refine ⟨⟨?_, ?_⟩, hnmr, hwps, hrr, hrsi, hvis⟩
  · rw [hvis]
    linarith [hnmr.1, hwps.1, hrr.1, hrsi.1]
  · rw [hvis]
    linarith [hnmr.2, hwps.2, hrr.2, hrsi.2, hnmr.1, hwps.1, hrr.1, hrsi.1]

/-- C1 witness: a run with one response and no mentions. -/
theorem claim1_metric_bounds_witness :
    (1 ≤ ([[]] : Run).length) ∧
      (0 ≤ (calculateAndStoreMetrics [[]] []).visibilityScore ∧
        (calculateAndStoreMetrics [[]] []).visibilityScore ≤ 100) :=
  ⟨by decide, (claim1_metric_bounds [[]] [] (by decide)).1⟩

lemma strStartsWith_length {s p : Str} (h : strStartsWith s p = true) :
    p.length ≤ s.length := by
  induction p generalizing s with
  | nil => simp
  | cons d pt ih =>
    cases s with
    | nil => simp [strStartsWith] at h
    | cons c st =>
      simp only [strStartsWith, Bool.and_eq_true, decide_eq_true_eq] at h
      simpa using ih h.2

lemma occursAt_le_length {pat s : Str} {q : Nat} (hne : pat ≠ [])
    (h : occursAt pat s q = true) : q + pat.length ≤ s.length := by
  have h2 : strStartsWith (s.drop q) pat = true := h
  have hl := strStartsWith_length h2
  have hd : (s.drop q).length = s.length - q := List.length_drop q s
  have hp : 0 < pat.length := List.length_pos.mpr hne
  omega

lemma isRecommendedAt_iff (lowerText : Str) (p : Nat) :
    isRecommendedAt lowerText p = true ↔
      ∃ pat ∈ recommendationPatterns, ∃ q, occursAt pat lowerText q = true ∧
        ((q : Int) - (p : Int)).natAbs < 150 ∧ q ≤ p + 50 := by
  unfold isRecommendedAt patternOccurrences
  simp only [List.any_eq_true, List.mem_filter, List.mem_range, Bool.and_eq_true,
    decide_eq_true_eq]
  constructor
  · rintro ⟨pat, hpat, q, ⟨hqlt, hocc⟩, hdist, hle⟩
    exact ⟨pat, hpat, q, hocc, hdist, hle⟩
  · rintro ⟨pat, hpat, q, hocc, hdist, hle⟩
    have hne : pat ≠ [] := by
      have hmem : pat ∈ recommendationPatterns := hpat
      simp only [recommendationPatterns, List.map_cons, List.map_nil,
        List.mem_cons, List.not_mem_nil, or_false] at hmem
      rcases hmem with rfl | rfl | rfl <;> decide
    have hlen := occursAt_le_length hne hocc
    exact ⟨pat, hpat, q, ⟨by omega, hocc⟩, hdist, hle⟩

lemma mem_annotate {lowerText : Str} {l : List DetectedMention}
    {m : DetectedMention} (hm : m ∈ annotateRecommendations lowerText l) :
    m.isRecommendation = isRecommendedAt lowerText m.position := by
  unfold annotateRecommendations at hm
  rcases List.mem_map.mp hm with ⟨m0, _, rfl⟩
  rfl

/-- C3: every mention leaving the pipeline is flagged as a recommendation
exactly when some recommendation-phrase occurrence in the lowercased text
lies within 150 characters of the mention position with the mention at most
50 characters before the phrase start; the flag is true for the Acme
mention of "I recommend Acme for this", and false for any mention more
than 150 characters away from every phrase occurrence. -/
theorem claim3_recommendation :
    (∀ (text : Str) (brand : Brand), ∀ m ∈ detectMentionsPipeline text brand,
      (m.isRecommendation = true ↔
        ∃ pat ∈ recommendationPatterns, ∃ q,
          occursAt pat (strToLower text) q = true ∧
          ((q : Int) - (m.position : Int)).natAbs < 150 ∧ q ≤ m.position + 50)) ∧
    ((detectMentionsPipeline "I recommend Acme for this".toList
        ⟨"Acme".toList, [], []⟩).map (fun m => (m.position, m.isRecommendation)) =
      [(12, true)]) ∧
    (∀ (text : Str) (brand : Brand), ∀ m ∈ detectMentionsPipeline text brand,
      (∀ pat ∈ recommendationPatterns, ∀ q, occursAt pat (strToLower text) q = true →
        150 < ((q : Int) - (m.position : Int)).natAbs) →
      m.isRecommendation = false) := by
  have hflag : ∀ (text : Str) (brand : Brand), ∀ m ∈ detectMentionsPipeline text brand,
      m.isRecommendation = isRecommendedAt (strToLower text) m.position := by
    intro text brand m hm
    exact mem_annotate hm
  refine ⟨?_, by decide, ?_⟩
  · intro text brand m hm
    rw [hflag text brand m hm]
    exact isRecommendedAt_iff _ _
  · intro text brand m hm hfar
    rw [hflag text brand m hm]
    cases hb : isRecommendedAt (strToLower text) m.position with
    | false => rfl
    | true =>
      exfalso
      rcases (isRecommendedAt_iff _ _).mp hb with ⟨pat, hpat, q, hocc, hdist, _⟩
      have := hfar pat hpat q hocc
      omega

/-- C3 witness: the Acme mention of "I recommend Acme for this" is within
range of a recommendation phrase. -/
theorem claim3_recommendation_witness :
    ∃ pat ∈ recommendationPatterns, ∃ q,
      occursAt pat (strToLower "I recommend Acme for this".toList) q = true ∧
      ((q : Int) - ((12 : Nat) : Int)).natAbs < 150 ∧ q ≤ 12 + 50 := by
  have h := claim3_recommendation.1 "I recommend Acme for this".toList
    ⟨"Acme".toList, [], []⟩
    { entityName := "Acme".toList, entityType := "brand", sentiment := "neutral",
      contextSnippet := "I recommend Acme for this".toList, position := 12,
      isRecommendation := true, positionRank := 1 }
    (by decide)
  exact h.mp rfl

lemma assignRanks_filter (c : Nat) (l : List DetectedMention) :
    (assignRanks c l).filter isBrand = rankSeq c (l.filter isBrand) := by
  induction l generalizing c with
  | nil => rfl
  | cons m rest ih =>
    by_cases hb : m.entityType = "brand"
    · have hb1 : isBrand { m with positionRank := c + 1 } = true := by
        simp [isBrand, hb]
      have hb2 : isBrand m = true := by simp [isBrand, hb]
      simp only [assignRanks, if_pos hb, List.filter_cons, hb1, hb2, if_true]
      rw [ih]
      rfl
    · have hb2 : isBrand m = false := by simp [isBrand, hb]
      simp only [assignRanks, if_neg hb, List.filter_cons, hb2,
        Bool.false_eq_true, if_false]
      exact ih c

/-- C2: whenever the collected mentions of a response contain brand
mentions at three character positions p1 < p2 < p3 (in any collection
order, possibly interleaved with competitor mentions), the mentions leaving
the ranking and annotation stages carry position ranks exactly 1, 2, 3 on
the brand mentions in ascending position order. -/
theorem claim2_position_ranks (l : List DetectedMention) (lowerText : Str)
    (p1 p2 p3 : Nat) (h12 : p1 < p2) (h23 : p2 < p3)
    (hperm : ((l.filter isBrand).map (fun m => m.position)).Perm [p1, p2, p3]) :
    ((annotateRecommendations lowerText (rankMentions l)).filter isBrand).map
      (fun m => (m.position, m.positionRank)) = [(p1, 1), (p2, 2), (p3, 3)] := by
  unfold rankMentions
  have hperm1 : (List.insertionSort mentionLE l).Perm l :=
    List.perm_insertionSort mentionLE l
  have hpermf : ((List.insertionSort mentionLE l).filter isBrand).Perm
      (l.filter isBrand) := hperm1.filter _
  have hpermmap : (((List.insertionSort mentionLE l).filter isBrand).map
      (fun m => m.position)).Perm [p1, p2, p3] :=
    (hpermf.map _).trans hperm
  have hsort : List.Sorted mentionLE (List.insertionSort mentionLE l) :=
    List.sorted_insertionSort mentionLE l
  have hsortf : List.Pairwise mentionLE
      ((List.insertionSort mentionLE l).filter isBrand) :=
    List.Pairwise.filter isBrand hsort
  have hsortmap : List.Sorted (· ≤ ·)
      (((List.insertionSort mentionLE l).filter isBrand).map (fun m => m.position)) := by
    rw [List.Sorted, List.pairwise_map]
    exact hsortf
  have htarget : List.Sorted (· ≤ ·) [p1, p2, p3] := by
    refine List.Pairwise.cons ?_ (List.Pairwise.cons ?_ (List.pairwise_singleton _ _))
    · intro a ha
      simp only [List.mem_cons, List.mem_singleton, List.not_mem_nil, or_false] at ha
      rcases ha with rfl | rfl <;> omega
    · intro a ha
      simp only [List.mem_singleton] at ha
      subst ha
      omega
  have hmapeq : ((List.insertionSort mentionLE l).filter isBrand).map
      (fun m => m.position) = [p1, p2, p3] :=
    List.eq_of_perm_of_sorted hpermmap hsortmap htarget
  have hlen : ((List.insertionSort mentionLE l).filter isBrand).length = 3 := by
    have := congrArg List.length hmapeq
    simpa using this
  obtain ⟨a, b, c, habc⟩ := List.length_eq_three.mp hlen
  rw [habc] at hmapeq
  simp only [List.map_cons, List.map_nil, List.cons.injEq, and_true] at hmapeq
  obtain ⟨ha, hb, hc⟩ := hmapeq
  have hswap : (annotateRecommendations lowerText
        (assignRanks 0 (List.insertionSort mentionLE l))).filter isBrand =
      ((assignRanks 0 (List.insertionSort mentionLE l)).filter isBrand).map
        (fun m => { m with isRecommendation := isRecommendedAt lowerText m.position }) := by
    unfold annotateRecommendations
    rw [List.filter_map]
    have hcomp : (isBrand ∘ fun m : DetectedMention =>
        { m with isRecommendation := isRecommendedAt lowerText m.position }) = isBrand :=
      funext fun m => rfl
    rw [hcomp]
  rw [hswap, assignRanks_filter, habc]
  simp only [rankSeq, List.map_cons, List.map_nil]
  rw [ha, hb, hc]

/-- C2 witness: three brand mentions collected out of order (positions 30,
10, 20) with a competitor mention interleaved receive ranks 1, 2, 3 in
ascending position order. -/
theorem claim2_position_ranks_witness :
    ((annotateRecommendations []
      (rankMentions
        [{ entityName := [], entityType := "competitor", sentiment := "",
           contextSnippet := [], position := 5, isRecommendation := false,
           positionRank := 0 },
         { entityName := [], entityType := "brand", sentiment := "",
           contextSnippet := [], position := 30, isRecommendation := false,
           positionRank := 0 },
         { entityName := [], entityType := "brand", sentiment := "",
           contextSnippet := [], position := 10, isRecommendation := false,
           positionRank := 0 },
         { entityName := [], entityType := "brand", sentiment := "",
           contextSnippet := [], position := 20, isRecommendation := false,
           positionRank := 0 }])).filter isBrand).map
      (fun m => (m.position, m.positionRank)) = [(10, 1), (20, 2), (30, 3)] :=
  claim2_position_ranks _ [] 10 20 30 (by decide) (by decide) (by decide)

lemma strIndex_some_startsWith {s p : Str} :
    ∀ {i : Nat}, strIndex s p = some i → strStartsWith (s.drop i) p = true := by
  induction s with
  | nil =>
    intro i h
    by_cases hc : strStartsWith [] p = true
    · unfold strIndex at h
      rw [if_pos hc] at h
      cases h
      exact hc
    · unfold strIndex at h
      rw [if_neg hc] at h
      cases h
  | cons c t ih =>
    intro i h
    by_cases hc : strStartsWith (c :: t) p = true
    · unfold strIndex at h
      rw [if_pos hc] at h
      cases h
      exact hc
    · unfold strIndex at h
      rw [if_neg hc] at h
      rcases Option.map_eq_some'.mp h with ⟨j, hj, hji⟩
      subst hji
      have ht := ih hj
      simpa [List.drop_succ_cons] using ht

lemma strIndex_some_min {s p : Str} :
    ∀ {i : Nat}, strIndex s p = some i →
      ∀ j, j < i → strStartsWith (s.drop j) p = false := by
  induction s with
  | nil =>
    intro i h j hj
    by_cases hc : strStartsWith [] p = true
    · unfold strIndex at h; rw [if_pos hc] at h; cases h; omega
    · unfold strIndex at h; rw [if_neg hc] at h; cases h
  | cons c t ih =>
    intro i h j hj
    by_cases hc : strStartsWith (c :: t) p = true
    · unfold strIndex at h; rw [if_pos hc] at h; cases h; omega
    · unfold strIndex at h
      rw [if_neg hc] at h
      rcases Option.map_eq_some'.mp h with ⟨j0, hj0, hji⟩
      subst hji
      cases j with
      | zero =>
        cases hb : strStartsWith (c :: t) p
        · exact hb
        · exact absurd hb hc
      | succ k =>
        have hk : k < j0 := by omega
        have ht := ih hj0 k hk
        simpa [List.drop_succ_cons] using ht

lemma strIndex_none {s p : Str} :
    strIndex s p = none → ∀ j, strStartsWith (s.drop j) p = false := by
  induction s with
  | nil =>
    intro h j
    by_cases hc : strStartsWith [] p = true
    · unfold strIndex at h; rw [if_pos hc] at h; cases h
    · have hf : strStartsWith [] p = false := by
        cases hb : strStartsWith [] p
        · rfl
        · exact absurd hb hc
      simpa using hf
  | cons c t ih =>
    intro h j
    by_cases hc : strStartsWith (c :: t) p = true
    · unfold strIndex at h; rw [if_pos hc] at h; cases h
    · unfold strIndex at h
      rw [if_neg hc] at h
      have ht : strIndex t p = none := by
        cases hx : strIndex t p
        · rfl
        · rw [hx] at h; cases h
      cases j with
      | zero =>
        cases hb : strStartsWith (c :: t) p
        · exact hb
        · exact absurd hb hc
      | succ k =>
        simpa [List.drop_succ_cons] using ih ht k

lemma strIndex_exists {s p : Str} {j : Nat}
    (h : strStartsWith (s.drop j) p = true) :
    ∃ i, strIndex s p = some i ∧ i ≤ j := by
  cases hidx : strIndex s p with
  | none =>
    rw [strIndex_none hidx j] at h
    cases h
  | some i =>
    refine ⟨i, rfl, ?_⟩
    by_contra hgt
    push_neg at hgt
    rw [strIndex_some_min hidx j hgt] at h
    cases h

lemma findMentionsAux_succ_none {original lower lowerEntity entityName : Str}
    {etype : String} {f s : Nat}
    (hidx : strIndex (lower.drop s) lowerEntity = none) :
    findMentionsAux original lower lowerEntity entityName etype (f + 1) s = [] := by
  unfold findMentionsAux
  rw [hidx]

lemma findMentionsAux_succ_some {original lower lowerEntity entityName : Str}
    {etype : String} {f s pos : Nat}
    (hidx : strIndex (lower.drop s) lowerEntity = some pos) :
    findMentionsAux original lower lowerEntity entityName etype (f + 1) s =
      if isWordBoundary lower (s + pos) lowerEntity.length then
        { entityName := entityName, entityType := etype, sentiment := "",
          contextSnippet := contextSnippetAt original entityName (s + pos),
          position := s + pos, isRecommendation := false, positionRank := 0 } ::
          findMentionsAux original lower lowerEntity entityName etype f
            (s + pos + lowerEntity.length)
      else
        findMentionsAux original lower lowerEntity entityName etype f
          (s + pos + lowerEntity.length) := by
  conv_lhs => unfold findMentionsAux
  rw [hidx]

lemma strToLower_ne_nil {E : Str} (hE : E ≠ []) : strToLower E ≠ [] := by
  cases E with
  | nil => exact absurd rfl hE
  | cons c t => simp [strToLower]

lemma findMentionsAux_beyond {original lower lowerEntity entityName : Str}
    {etype : String} (hne : lowerEntity ≠ []) {s : Nat}
    (hs : lower.length < s) :
    ∀ fuel, findMentionsAux original lower lowerEntity entityName etype fuel s = [] := by
  intro fuel
  cases fuel with
  | zero => rfl
  | succ f =>
    have hdrop : lower.drop s = [] := List.drop_eq_nil_of_le (by omega)
    have hidx : strIndex (lower.drop s) lowerEntity = none := by
      rw [hdrop]
      cases lowerEntity with
      | nil => exact absurd rfl hne
      | cons d p => simp [strIndex, strStartsWith]
    exact findMentionsAux_succ_none hidx

lemma findMentionsAux_sound {original lower lowerEntity entityName : Str}
    {etype : String} :
    ∀ (fuel s : Nat) (m : DetectedMention),
      m ∈ findMentionsAux original lower lowerEntity entityName etype fuel s →
      strStartsWith (lower.drop m.position) lowerEntity = true ∧
      isWordBoundary lower m.position lowerEntity.length = true ∧ s ≤ m.position := by
  intro fuel
  induction fuel with
  | zero => intro s m hm; cases hm
  | succ f ih =>
    intro s m hm
    cases hidx : strIndex (lower.drop s) lowerEntity with
    | none =>
      rw [findMentionsAux_succ_none hidx] at hm
      cases hm
    | some pos =>
      rw [findMentionsAux_succ_some hidx] at hm
      have hocc0 := strIndex_some_startsWith hidx
      rw [List.drop_drop] at hocc0
      by_cases hb : isWordBoundary lower (s + pos) lowerEntity.length = true
      · rw [if_pos hb] at hm
        rcases List.mem_cons.mp hm with rfl | hm2
        · exact ⟨hocc0, hb, Nat.le_add_right s pos⟩
        · obtain ⟨h1, h2, h3⟩ := ih _ m hm2
          exact ⟨h1, h2, by omega⟩
      · rw [if_neg hb] at hm
        obtain ⟨h1, h2, h3⟩ := ih _ m hm
        exact ⟨h1, h2, by omega⟩

lemma findMentionsAux_stable {original lower lowerEntity entityName : Str}
    {etype : String} (hne : lowerEntity ≠ []) :
    ∀ (fuel1 fuel2 s : Nat), lower.length + 1 - s ≤ fuel1 →
      lower.length + 1 - s ≤ fuel2 →
      findMentionsAux original lower lowerEntity entityName etype fuel1 s =
        findMentionsAux original lower lowerEntity entityName etype fuel2 s := by
  intro fuel1
  induction fuel1 with
  | zero =>
    intro fuel2 s h1 h2
    have hs : lower.length < s := by omega
    rw [findMentionsAux_beyond hne hs fuel2]
    rfl
  | succ f ih =>
    intro fuel2 s h1 h2
    rcases Nat.lt_or_ge lower.length s with hs | hs
    · rw [findMentionsAux_beyond hne hs (f + 1), findMentionsAux_beyond hne hs fuel2]
    · cases fuel2 with
      | zero => omega
      | succ f2 =>
        cases hidx : strIndex (lower.drop s) lowerEntity with
        | none =>
          rw [findMentionsAux_succ_none hidx, findMentionsAux_succ_none hidx]
        | some pos =>
          rw [findMentionsAux_succ_some hidx, findMentionsAux_succ_some hidx]
          have hocc := strIndex_some_startsWith hidx
          have hlen := strStartsWith_length hocc
          have hdl : ((lower.drop s).drop pos).length = lower.length - s - pos := by
            simp only [List.length_drop]
          have hp : 0 < lowerEntity.length := List.length_pos.mpr hne
          rw [ih f2 (s + pos + lowerEntity.length) (by omega) (by omega)]

lemma findMentionsAux_complete {original lower lowerEntity entityName : Str}
    {etype : String} (hne : lowerEntity ≠ [])
    (hsep : ∀ i j, strStartsWith (lower.drop i) lowerEntity = true →
      strStartsWith (lower.drop j) lowerEntity = true → i < j →
      i + lowerEntity.length ≤ j) :
    ∀ (fuel s p : Nat), lower.length + 1 - s ≤ fuel → s ≤ p →
      strStartsWith (lower.drop p) lowerEntity = true →
      isWordBoundary lower p lowerEntity.length = true →
      p ∈ (findMentionsAux original lower lowerEntity entityName etype fuel s).map
        (fun m => m.position) := by
  intro fuel
  induction fuel with
  | zero =>
    intro s p hb hsp hocc hbd
    exfalso
    have hl := strStartsWith_length hocc
    have hp : 0 < lowerEntity.length := List.length_pos.mpr hne
    have hdl : (lower.drop p).length = lower.length - p := by
      simp [List.length_drop]
    omega
  | succ f ih =>
    intro s p hb hsp hocc hbd
    have hoff : strStartsWith ((lower.drop s).drop (p - s)) lowerEntity = true := by
      rw [List.drop_drop]
      have hps : s + (p - s) = p := by omega
      rw [hps]
      exact hocc
    obtain ⟨i, hidx, hile⟩ := strIndex_exists hoff
    rw [findMentionsAux_succ_some hidx]
    have hocc_i : strStartsWith (lower.drop (s + i)) lowerEntity = true := by
      have hx := strIndex_some_startsWith hidx
      rwa [List.drop_drop] at hx
    have hp0 : 0 < lowerEntity.length := List.length_pos.mpr hne
    rcases Nat.lt_or_ge (s + i) p with hlt | hge
    · have hsep2 := hsep (s + i) p hocc_i hocc hlt
      have hmem := ih (s + i + lowerEntity.length) p (by omega) (by omega) hocc hbd
      by_cases hbnd : isWordBoundary lower (s + i) lowerEntity.length = true
      · rw [if_pos hbnd]
        simp only [List.map_cons, List.mem_cons]
        exact Or.inr hmem
      · rw [if_neg hbnd]
        exact hmem
    · have heq : s + i = p := by omega
      have hbnd : isWordBoundary lower (s + i) lowerEntity.length = true := by
        rw [heq]; exact hbd
      rw [if_pos hbnd]
      simp only [List.map_cons, List.mem_cons]
      exact Or.inl heq.symm

lemma strToLower_length (s : Str) : (strToLower s).length = s.length :=
  List.length_map s Char.toLower

/-- C5 counterexample: with candidate "a-a" and text "a-a-a" there is a
case-insensitive occurrence at position 2 whose neighbours are acceptable
(start of a word and end of text), yet the scan reports only position 0:
the occurrence at 2 overlaps the previously examined match and is skipped. -/
theorem claim5_counterexample :
    occursAt (strToLower "a-a".toList) (strToLower "a-a-a".toList) 2 = true ∧
    isWordBoundary (strToLower "a-a-a".toList) 2 ("a-a".toList).length = true ∧
    (findEntityMentions "a-a-a".toList (strToLower "a-a-a".toList) "a-a".toList
      "brand").map (fun m => m.position) = [0] := by
  decide

/-- C5 (amended): the scan never reports an occurrence preceded or followed
by a letter or digit, and matching is case-insensitive; completeness holds
for candidates whose case-insensitive occurrences in the text are pairwise
non-overlapping (each pair of distinct occurrence positions at least the
candidate length apart): then a position is reported exactly when a
case-insensitive occurrence with acceptable neighbours starts there.  (The
scan advances past every examined match, so of two overlapping occurrences
only the first is examined.) -/
theorem claim5_boundary_scan (T E : Str) (etype : String) (hE : E ≠ [])
    (hsep : ∀ i j, occursAt (strToLower E) (strToLower T) i = true →
      occursAt (strToLower E) (strToLower T) j = true → i < j →
      i + E.length ≤ j) :
    ∀ p, p ∈ (findEntityMentions T (strToLower T) E etype).map
        (fun m => m.position) ↔
      (occursAt (strToLower E) (strToLower T) p = true ∧
        isWordBoundary (strToLower T) p E.length = true) := by
  have hlen : (strToLower E).length = E.length := strToLower_length E
  have hne : strToLower E ≠ [] := strToLower_ne_nil hE
  intro p
  constructor
  · intro hp
    rcases List.mem_map.mp hp with ⟨m, hm, hmp⟩
    subst hmp
    obtain ⟨h1, h2, _⟩ := findMentionsAux_sound _ _ m hm
    rw [hlen] at h2
    exact ⟨h1, h2⟩
  · rintro ⟨hocc, hbd⟩
    have hsep2 : ∀ i j, strStartsWith ((strToLower T).drop i) (strToLower E) = true →
        strStartsWith ((strToLower T).drop j) (strToLower E) = true → i < j →
        i + (strToLower E).length ≤ j := by
      intro i j hi hj hij
      rw [hlen]
      exact hsep i j hi hj hij
    have hbd2 : isWordBoundary (strToLower T) p (strToLower E).length = true := by
      rw [hlen]
      exact hbd
    exact findMentionsAux_complete hne hsep2 ((strToLower T).length + 1) 0 p
      (by omega) (Nat.zero_le p) hocc hbd2

/-- C5 witness: candidate "acme" in "go acme go", with one occurrence
(trivially non-overlapping): position 3 and only position 3 is reported. -/
theorem claim5_boundary_scan_witness :
    ("acme".toList ≠ ([] : Str)) ∧
    ((3 : Nat) ∈ (findEntityMentions "go acme go".toList
        (strToLower "go acme go".toList) "acme".toList "brand").map
        (fun m => m.position) ↔
      (occursAt (strToLower "acme".toList) (strToLower "go acme go".toList) 3 = true ∧
        isWordBoundary (strToLower "go acme go".toList) 3 ("acme".toList).length = true)) := by
  have hocc3 : ∀ q, occursAt (strToLower "acme".toList)
      (strToLower "go acme go".toList) q = true → q = 3 := by
    intro q hq
    have hb := occursAt_le_length
      (by decide : (strToLower "acme".toList) ≠ []) hq
    have h1 : (strToLower "acme".toList).length = 4 := by decide
    have h2 : (strToLower "go acme go".toList).length = 10 := by decide
    rw [h1, h2] at hb
    have hub : q ≤ 6 := by omega
    interval_cases q <;> revert hq <;> decide
  refine ⟨by decide,
    claim5_boundary_scan "go acme go".toList "acme".toList "brand" (by decide) ?_ 3⟩
  intro i j hi hj hij
  have hi3 := hocc3 i hi
  have hj3 := hocc3 j hj
  omega

/-- C10: with a non-empty candidate the occurrence-scanning loop
terminates: the result no longer depends on the fuel bound once the fuel
reaches text length + 1, because each iteration advances the search start
by the candidate length; non-emptiness is necessary: with an empty
candidate the loop never advances (on the text "--" it emits one mention
per fuel unit at position 0, forever). -/
theorem claim10_termination :
    (∀ (T E : Str) (etype : String) (fuel : Nat), E ≠ [] →
      (strToLower T).length + 1 ≤ fuel →
      findMentionsAux T (strToLower T) (strToLower E) E etype fuel 0 =
        findEntityMentions T (strToLower T) E etype) ∧
    (∀ fuel, (findMentionsAux ['-', '-'] ['-', '-'] [] [] "brand" fuel 0).length =
      fuel) := by
  constructor
  · intro T E etype fuel hE hfuel
    have hne : strToLower E ≠ [] := strToLower_ne_nil hE
    exact findMentionsAux_stable hne fuel ((strToLower T).length + 1) 0
      (by omega) (by omega)
  · intro fuel
    induction fuel with
    | zero => rfl
    | succ f ihf =>
      have hidx : strIndex ((['-', '-'] : Str).drop 0) ([] : Str) = some 0 := rfl
      rw [findMentionsAux_succ_some hidx, if_pos (by decide)]
      rw [List.length_cons]
      have hzero : (0 : Nat) + 0 + ([] : Str).length = 0 := rfl
      rw [hzero, ihf]

/-- C10 witness: for text "ab" and candidate "b", fuel 10 (at least text
length + 1) already gives the scan result; and with the empty candidate
three fuel units yield three mentions. -/
theorem claim10_termination_witness :
    (findMentionsAux "ab".toList (strToLower "ab".toList)
        (strToLower "b".toList) "b".toList "brand" 10 0 =
      findEntityMentions "ab".toList (strToLower "ab".toList) "b".toList "brand") ∧
    (findMentionsAux ['-', '-'] ['-', '-'] [] [] "brand" 3 0).length = 3 :=
  ⟨claim10_termination.1 "ab".toList "b".toList "brand" 10 (by decide) (by decide),
   claim10_termination.2 3⟩

end AIVT
